import Mathlib

/-!
Verification of the GoMILP branch-and-bound core against its specification.

The Go sources are shallowly embedded: float64 is modelled as ℚ, Go slices as
lists, nilable slices/matrices as Option, and panics as Option-valued results
(none = panic).  Definitions mirror the functions in ilp.go, tree.go,
branching.go, subproblem.go, presolve.go and api.go.
-/

namespace GoMILP

/-- Branching heuristic options (branching.go).  The Go type is an int with
three named values; unknown values make `solution.branch` panic, which the
dispatch models by exhaustiveness over these three constructors. -/
inductive BranchHeuristic where
  | BRANCH_MAXFUN
  | BRANCH_MOST_INFEASIBLE
  | BRANCH_NAIVE
deriving DecidableEq, Repr

/-- Branch-and-bound decisions (tree.go const block). -/
inductive bnbDecision where
  | SUBPROBLEM_IS_DEGENERATE
  | SUBPROBLEM_NOT_FEASIBLE
  | WORSE_THAN_INCUMBENT
  | BETTER_THAN_INCUMBENT_BRANCHING
  | BETTER_THAN_INCUMBENT_FEASIBLE
  | INITIAL_RX_FEASIBLE_FOR_IP
deriving DecidableEq, Repr

/-- The string value each `bnbDecision` constant is defined as in tree.go. -/
def bnbDecisionString : bnbDecision → String
  | .SUBPROBLEM_IS_DEGENERATE => "subproblem contains a degenerate (singular) matrix"
  | .SUBPROBLEM_NOT_FEASIBLE => "subproblem has no feasible solution"
  | .WORSE_THAN_INCUMBENT => "worse than incumbent"
  | .BETTER_THAN_INCUMBENT_BRANCHING => "better than incumbent but not integer feasible, so branching"
  | .BETTER_THAN_INCUMBENT_FEASIBLE => "better than incumbent and integer feasible, so replacing incumbent"
  | .INITIAL_RX_FEASIBLE_FOR_IP => "initial relaxation is feasible for IP"

/-- Typed failures of the external LP solver (gonum lp package), plus a
catch-all for any other error value a candidate solution may carry. -/
inductive lpError where
  | ErrInfeasible
  | ErrSingular
  | ErrUnbounded
  | other
deriving DecidableEq, Repr

/-- The `expectedFailures` map of ilp.go lines 64-71: per-key lookup.  Map
iteration order in Go is irrelevant here because keys are distinct and
`translateSolverFailure` only compares the error against each key. -/
def expectedFailures : lpError → Option bnbDecision
  | .ErrInfeasible => some .SUBPROBLEM_IS_DEGENERATE
  | .ErrSingular => some .SUBPROBLEM_NOT_FEASIBLE
  | _ => none

/-- translateSolverFailure (tree.go lines 261-268): returns the decision an
expected failure maps to, and panics (modelled as `none`) on any other
error. -/
def translateSolverFailure (err : lpError) : Option bnbDecision :=
  expectedFailures err

/-- Dense matrix (gonum mat.Dense): dimensions plus an entry function.
Entries outside the dimensions are irrelevant junk. -/
structure Mat where
  rows : ℕ
  cols : ℕ
  entry : ℕ → ℕ → ℚ

/-- math.Trunc: the integer part of a float, rounded toward zero. -/
def trunc (q : ℚ) : ℤ :=
  if 0 ≤ q then ⌊q⌋ else -⌊-q⌋

/-- The fractional part returned by math.Modf: f = v - trunc v, carrying the
sign of v. -/
def modfFrac (v : ℚ) : ℚ :=
  v - (trunc v : ℚ)

/-- One branch-and-bound constraint (subproblem.go lines 37-44). -/
structure bnbConstraint where
  branchedVariable : ℕ
  hsharp : ℚ
  gsharp : List ℚ
deriving DecidableEq, Repr

/-- A node of the enumeration tree (subproblem.go lines 11-35). -/
structure subProblem where
  id : ℤ
  parent : ℤ
  c : List ℚ
  A : Option Mat
  b : List ℚ
  G : Option Mat
  h : List ℚ
  integralityConstraints : List Bool
  branchHeuristic : BranchHeuristic
  bnbConstraints : List bnbConstraint

/-- A candidate solution produced by the LP solver (subproblem.go lines
46-51). -/
structure solution where
  problem : subProblem
  x : List ℚ
  z : ℚ
  err : Option lpError

/-- Loop body of maxFunBranchPoint (branching.go lines 62-69): iterate over c
with index i, carrying (candidateValue, currentCandidate).  Note the source
never assigns candidateValue, so it stays at its zero value. -/
def maxFunLoop : List ℚ → List Bool → ℕ → ℚ × ℕ → ℚ × ℕ
  | [], _, _, st => st
  | v :: rest, ics, i, st =>
      maxFunLoop rest ics (i + 1)
        (if ics.getD i false then (if st.1 ≤ |v| then (st.1, i) else st) else st)

/-- maxFunBranchPoint (branching.go lines 54-72).  Panics (none) when the
lengths of c and the integrality mask differ. -/
def maxFunBranchPoint (c : List ℚ) (integralityConstraints : List Bool) : Option ℕ :=
  if c.length ≠ integralityConstraints.length then none
  else some (maxFunLoop c integralityConstraints 0 (0, 0)).2

/-- Loop body of mostInfeasibleBranchPoint (branching.go lines 83-91):
carries (candidateRemainder, currentCandidate); the source never assigns
candidateRemainder, so it stays 1.0. -/
def mostInfeasibleLoop : List ℚ → List Bool → ℕ → ℚ × ℕ → ℚ × ℕ
  | [], _, _, st => st
  | v :: rest, ics, i, st =>
      mostInfeasibleLoop rest ics (i + 1)
        (if ics.getD i false then
          (if 1/2 - modfFrac v ≤ st.1 then (st.1, i) else st)
        else st)

/-- mostInfeasibleBranchPoint (branching.go lines 75-94).  Its argument is
named c because solution.branch passes the objective vector c, not the
relaxation solution x. -/
def mostInfeasibleBranchPoint (c : List ℚ) (integralityConstraints : List Bool) : Option ℕ :=
  if c.length ≠ integralityConstraints.length then none
  else some (mostInfeasibleLoop c integralityConstraints 0 (1, 0)).2

/-- The no-previous-branches loop of naiveBranchPoint (branching.go lines
23-27): `for i := range ics { if ics[i] { branchOn = i } }` starting with
branchOn = acc; i is the index of the head of the remaining list. -/
def lastTrueLoop : List Bool → ℕ → ℕ → ℕ
  | [], _, acc => acc
  | bv :: rest, i, acc => lastTrueLoop rest (i + 1) (if bv then i else acc)

/-- The wrap-around cursor loop of naiveBranchPoint (branching.go lines
36-46).  The Go loop is unbounded; `fuel` bounds the number of iterations of
the model, and the C10 theorem shows n + 1 units suffice.  An out-of-range
read of the integrality mask is the Go panic, modelled as none. -/
def cursorLoop (n : ℕ) (integralityConstraints : List Bool) : ℕ → ℕ → Option ℕ
  | _, 0 => none
  | cursor, fuel + 1 =>
      let c1 := if cursor = n - 1 then 0 else cursor + 1
      if h : c1 < integralityConstraints.length then
        if integralityConstraints.get ⟨c1, h⟩ then some c1
        else cursorLoop n integralityConstraints c1 fuel
      else none

/-- naiveBranchPoint (branching.go lines 17-51). -/
def naiveBranchPoint (s : solution) : Option ℕ :=
  if s.problem.bnbConstraints.length = 0 then
    some (lastTrueLoop s.problem.integralityConstraints 0 0)
  else
    match s.problem.bnbConstraints.getLast? with
    | none => none
    | some lastConstraint =>
        cursorLoop s.problem.c.length s.problem.integralityConstraints
          lastConstraint.branchedVariable (s.problem.c.length + 1)

/-- The heuristic dispatch at the head of solution.branch (subproblem.go
lines 213-227). -/
def branchPoint (s : solution) : Option ℕ :=
  match s.problem.branchHeuristic with
  | .BRANCH_MAXFUN => maxFunBranchPoint s.problem.c s.problem.integralityConstraints
  | .BRANCH_MOST_INFEASIBLE =>
      mostInfeasibleBranchPoint s.problem.c s.problem.integralityConstraints
  | .BRANCH_NAIVE => naiveBranchPoint s

/-- subProblem.copy (subproblem.go lines 271-288) at the value level: same
fields, parent set to the parent's id; the heap-level aliasing behaviour is
modelled separately for C9. -/
def subProblem.copy (p : subProblem) : subProblem :=
  { p with parent := p.id }

/-- subProblem.getChild (subproblem.go lines 247-264): copy the parent and
append one new constraint whose gsharp row is all zeros except `factor` at
position branchOn.  (Go panics when branchOn is out of range; List.set
silently no-ops there, so theorems carry branchOn < c.length.) -/
def getChild (p : subProblem) (branchOn : ℕ) (factor : ℚ) (smallerOrEqualThan : ℚ) :
    subProblem :=
  let child := p.copy
  let newConstraint : bnbConstraint :=
    { branchedVariable := branchOn
      hsharp := smallerOrEqualThan
      gsharp := (List.replicate p.c.length 0).set branchOn factor }
  { child with bnbConstraints := child.bnbConstraints ++ [newConstraint] }

/-- solution.branch (subproblem.go lines 211-243): pick the branch variable
via the heuristic, read its value from x (out-of-range read panics: none),
and build the two children; the ids are then bumped by 1 and 2. -/
def branch (s : solution) : Option (subProblem × subProblem) :=
  match branchPoint s with
  | none => none
  | some branchOn =>
      match s.x.get? branchOn with
      | none => none
      | some currentCoeff =>
          let p1 := getChild s.problem branchOn 1 (⌊currentCoeff⌋ : ℚ)
          let p2 := getChild s.problem branchOn (-1) (-((⌊currentCoeff⌋ : ℚ) + 1))
          some ({ p1 with id := p1.id + 1 }, { p2 with id := p2.id + 2 })

/-- isAllInteger (tree.go lines 285-292) for a single value: k == math.Trunc(k). -/
def isAllInteger (k : ℚ) : Bool :=
  k = (trunc k : ℚ)

/-- feasibleForIP (tree.go lines 271-283): panics (none) when the constraint
and solution vectors have different lengths; otherwise true iff every
integrality-constrained entry is an exact integer. -/
def feasibleForIP (constraints : List Bool) (sol : List ℚ) : Option Bool :=
  if constraints.length ≠ sol.length then none
  else some (List.range sol.length |>.all fun i =>
    !(constraints.getD i false) || isAllInteger (sol.getD i 0))

/-- enumerationTree.checkSolution (tree.go lines 202-258), restricted to its
effect on the incumbent slot and the decision it emits.  A missing incumbent
stands for an objective of +infinity, so the incumbentZ <= candidate.z test
is false exactly when there is no incumbent.  none models the panics
(unexpected solver error, length mismatch in feasibleForIP, panic inside
candidate.branch); the enqueueing of the two children is dropped since only
the incumbent and decision are at stake. -/
def checkSolution (incumbent : Option solution) (candidate : solution) :
    Option (Option solution × bnbDecision) :=
  match candidate.err with
  | some e =>
      match translateSolverFailure e with
      | none => none
      | some failure => some (incumbent, failure)
  | none =>
      if (match incumbent with
          | none => false
          | some inc => decide (inc.z ≤ candidate.z)) then
        some (incumbent, .WORSE_THAN_INCUMBENT)
      else
        match feasibleForIP candidate.problem.integralityConstraints candidate.x with
        | none => none
        | some true => some (some candidate, .BETTER_THAN_INCUMBENT_FEASIBLE)
        | some false =>
            match branch candidate with
            | none => none
            | some _ => some (incumbent, .BETTER_THAN_INCUMBENT_BRANCHING)

/-- One weighted expression of a user constraint (api.go lines 61-64);
the Go *Variable pointer is identified by the variable's unique name. -/
structure expression where
  coef : ℚ
  varName : String
deriving DecidableEq, Repr

/-- A user-level constraint (api.go lines 66-78). -/
structure Constraint where
  expressions : List expression
  rhs : ℚ
  inequality : Bool
deriving DecidableEq, Repr

instance : Inhabited Constraint := ⟨⟨[], 0, false⟩⟩

/-- The per-constraint identity set built by removeDuplicateConstraints
(presolve.go lines 250-257): the Go code stores the strings
name ++ "-" ++ coef; the model stores the (name, coefficient) pairs the
string encodes. -/
def cSet (c : Constraint) : Finset (String × ℚ) :=
  (c.expressions.map fun e => (e.varName, e.coef)).toFinset

/-- The inner j-loop of removeDuplicateConstraints (presolve.go lines
264-274): the indices j ≠ i whose set equals set i, in ascending order. -/
def dupMatches (sets : List (Finset (String × ℚ))) (i : ℕ) : List ℕ :=
  (List.range sets.length).filter fun j =>
    decide (j ≠ i) && decide (sets.getD j ∅ = sets.getD i ∅)

/-- removeDuplicateConstraints (presolve.go lines 244-295) on the constraint
list: constraints whose set matches no other are retained (in order); then,
for every ordered pair (i, j) of distinct indices with equal sets, the
j-constraint is appended when constraint i's rhs is strictly larger. -/
def removeDuplicateConstraints (constraints : List Constraint) : List Constraint :=
  let sets := constraints.map cSet
  let equalExpressions : List (Constraint × Constraint) :=
    (List.range constraints.length).flatMap fun i =>
      (dupMatches sets i).map fun j =>
        (constraints.getD i default, constraints.getD j default)
  let retained : List Constraint :=
    ((List.range constraints.length).filter fun i => (dupMatches sets i).isEmpty).map
      fun i => constraints.getD i default
  retained ++ equalExpressions.filterMap fun pr =>
    if pr.1.rhs > pr.2.rhs then some pr.2 else none

/-- A zero-initialised dense matrix (mat.NewDense(r, c, nil)). -/
def Mat.zero (r c : ℕ) : Mat :=
  ⟨r, c, fun _ _ => 0⟩

/-- Copying src into the rectangular view dst.Slice(r0, r1, c0, c1). -/
def Mat.copyInto (dst src : Mat) (r0 r1 c0 c1 : ℕ) : Mat :=
  { dst with entry := fun i j =>
      if r0 ≤ i ∧ i < r1 ∧ c0 ≤ j ∧ j < c1 then src.entry (i - r0) (j - c0)
      else dst.entry i j }

/-- The diagonal fill loop of convertToEqualities: ones at
(r0 + t, c0 + t) for t < k. -/
def Mat.setDiagOnes (dst : Mat) (r0 c0 k : ℕ) : Mat :=
  { dst with entry := fun i j =>
      if r0 ≤ i ∧ i < r0 + k ∧ j = c0 + (i - r0) then 1 else dst.entry i j }

/-- sanityCheckDimensions (subproblem.go lines 291-336), true when an error
is returned.  A nil Go slice is identified with the empty list. -/
def sanityCheckDimensions (c : List ℚ) (A : Option Mat) (b : List ℚ)
    (G : Option Mat) (h : List ℚ) : Bool :=
  if A.isNone && G.isNone then true
  else
    (match G with
     | some g => h.isEmpty || decide (g.rows ≠ h.length) || decide (g.cols ≠ c.length)
     | none => !h.isEmpty) ||
    (match A with
     | some a => decide (a.rows ≠ b.length) || decide (a.cols ≠ c.length)
     | none => !b.isEmpty)

/-- convertToEqualities (subproblem.go lines 107-171): fold the inequality
system G·x ≤ h into the equality system via one slack variable per
inequality row.  none models the panics on a nil G or failed sanity
checks. -/
def convertToEqualities (c : List ℚ) (A : Option Mat) (b : List ℚ)
    (G : Option Mat) (h : List ℚ) : Option (List ℚ × Mat × List ℚ) :=
  match G with
  | none => none
  | some g =>
      if sanityCheckDimensions c A b (some g) h then none
      else
        let nVar := c.length
        let nCons := b.length
        let nIneq := h.length
        let nNewVar := nVar + nIneq
        let nNewCons := b.length + nIneq
        let cNew := c ++ List.replicate nIneq 0
        let bNew := b ++ h
        let aNew0 := Mat.zero nNewCons nNewVar
        let aNew1 :=
          match A with
          | some a => aNew0.copyInto a 0 nCons 0 nVar
          | none => aNew0
        let aNew2 := aNew1.copyInto g nCons nNewCons 0 nVar
        let aNew := aNew2.setDiagOnes nCons nVar nIneq
        if sanityCheckDimensions cNew (some aNew) bNew none [] then none
        else some (cNew, aNew, bNew)

/-- A user-level variable (api.go lines 44-57); upper = none models the
default +Inf bound. -/
structure Variable where
  name : String
  coefficient : ℚ
  integer : Bool
  upper : Option ℚ
  lower : ℚ
deriving DecidableEq, Repr

/-- The user-level problem (api.go lines 28-41). -/
structure Problem where
  «variables» : List Variable
  maximize : Bool
  constraints : List Constraint
  branchingHeuristic : BranchHeuristic
  workers : ℕ

/-- getVariableIndex (api.go lines 185-192): linear search; the Go pointer
identity is modelled by the variable's unique name; none models the
panic. -/
def getVariableIndex (p : Problem) (varName : String) : Option ℕ :=
  p.variables.findIdx? fun va => va.name = varName

/-- The indexRow construction inside toSolveable (api.go lines 222-227). -/
def buildIndexRow (p : Problem) (exprs : List expression) : Option (List ℚ) :=
  exprs.foldlM
    (fun row e =>
      match getVariableIndex p e.varName with
      | none => none
      | some i => some (row.set i e.coef))
    (List.replicate p.variables.length 0)

/-- The numeric problem produced by toSolveable (ilp.go milpProblem);
matrices are row lists here (mat.NewDense(rows, nVars, data)). -/
structure milpProblem where
  c : List ℚ
  A : Option (List (List ℚ))
  b : List ℚ
  G : Option (List (List ℚ))
  h : List ℚ
  integralityConstraints : List Bool
  branchingHeuristic : BranchHeuristic
deriving DecidableEq, Repr

/-- Problem.toSolveable (api.go lines 195-292). -/
def toSolveable (p : Problem) : Option milpProblem :=
  let c := p.variables.map fun v =>
    if p.maximize then v.coefficient * (-1) else v.coefficient
  let integrality := p.variables.map fun v => v.integer
  match p.constraints.foldlM
      (fun st constraint =>
        match buildIndexRow p constraint.expressions with
        | none => none
        | some indexRow =>
            if constraint.inequality then
              some (st.1, st.2.1, st.2.2.1 ++ [indexRow], st.2.2.2 ++ [constraint.rhs])
            else
              some (st.1 ++ [indexRow], st.2.1 ++ [constraint.rhs], st.2.2.1, st.2.2.2))
      (([], [], [], []) : List (List ℚ) × List ℚ × List (List ℚ) × List ℚ) with
  | none => none
  | some parsed =>
      let Adata := parsed.1
      let b := parsed.2.1
      match p.variables.foldlM
          (fun (st : List (List ℚ) × List ℚ) v =>
            let afterUpper :=
              match v.upper with
              | some u =>
                  match getVariableIndex p v.name with
                  | none => none
                  | some i =>
                      some (st.1 ++ [(List.replicate p.variables.length 0).set i 1],
                        st.2 ++ [u])
              | none => some st
            match afterUpper with
            | none => none
            | some st1 =>
                if ¬(v.lower ≤ 0) then
                  match getVariableIndex p v.name with
                  | none => none
                  | some i =>
                      some (st1.1 ++ [(List.replicate p.variables.length 0).set i (-1)],
                        st1.2 ++ [-v.lower])
                else some st1)
          (parsed.2.2.1, parsed.2.2.2) with
      | none => none
      | some gparsed =>
          some
            { c := c
              A := if b.length > 0 then some Adata else none
              b := b
              G := if gparsed.2.length > 0 then some gparsed.1 else none
              h := gparsed.2
              integralityConstraints := integrality
              branchingHeuristic := p.branchingHeuristic }

/-- The user-facing result (api.go lines 330-341): objective, ordered
(name, value) pairs, and the byName map as an association list. -/
structure Solution where
  Objective : ℚ
  Coefficients : List (String × ℚ)
  byName : List (String × ℚ)
deriving DecidableEq, Repr

/-- The result assembly of Problem.Solve (api.go lines 304-325), given the
numeric solver outcome (z, x): Objective is set to soln.solution.z as-is;
reading a name for an x entry beyond the declared variables panics
(none). -/
def solveAssemble (p : Problem) (z : ℚ) (x : List ℚ) : Option Solution :=
  match (List.range x.length).mapM
      (fun i => (p.variables.get? i).map fun va => (va.name, x.getD i 0)) with
  | none => none
  | some coeffs => some { Objective := z, Coefficients := coeffs, byName := coeffs }

/-- A Go slice header for the bnbConstraints list: backing-array reference,
length and capacity. -/
structure SliceRef where
  ref : ℕ
  len : ℕ
  cap : ℕ
deriving DecidableEq, Repr

/-- The store of bnbConstraint backing arrays; next is the first unallocated
reference. -/
structure Store where
  next : ℕ
  mem : ℕ → List bnbConstraint

/-- The elements a slice header denotes in a store. -/
def sliceContent (σ : Store) (s : SliceRef) : List bnbConstraint :=
  (σ.mem s.ref).take s.len

/-- Go make([]bnbConstraint, n) followed by copy: a fresh backing array
holding data, with len = cap = its length. -/
def allocSlice (σ : Store) (data : List bnbConstraint) : SliceRef × Store :=
  (⟨σ.next, data.length, data.length⟩,
   ⟨σ.next + 1, fun r => if r = σ.next then data else σ.mem r⟩)

/-- Go append(s, x): writes in place while capacity remains, reallocates
otherwise. -/
def appendSlice (σ : Store) (s : SliceRef) (x : bnbConstraint) : SliceRef × Store :=
  if s.len < s.cap then
    (⟨s.ref, s.len + 1, s.cap⟩,
     { σ with mem := fun r =>
        if r = s.ref then
          (σ.mem s.ref).take s.len ++ [x] ++ (σ.mem s.ref).drop (s.len + 1)
        else σ.mem r })
  else allocSlice σ (sliceContent σ s ++ [x])

/-- subProblem with the large read-only arrays behind opaque references and
bnbConstraints behind a slice header, for the aliasing claims. -/
structure subProblemRef where
  id : ℤ
  parent : ℤ
  c : ℕ
  A : ℕ
  b : ℕ
  G : ℕ
  h : ℕ
  integralityConstraints : ℕ
  branchHeuristic : BranchHeuristic
  bnbConstraints : SliceRef
deriving DecidableEq, Repr

/-- subProblem.copy (subproblem.go lines 271-288) at the reference level:
all fields are reused, parent := id, and bnbConstraints is a fresh
make-plus-copy of the parent's list. -/
def copyRef (p : subProblemRef) (σ : Store) : subProblemRef × Store :=
  let rs := allocSlice σ (sliceContent σ p.bnbConstraints)
  ({ p with parent := p.id, bnbConstraints := rs.1 }, rs.2)

/-- subProblem.getChild (subproblem.go lines 247-264) at the reference
level; cLen stands for len(p.c), whose content sits behind the read-only
reference p.c. -/
def getChildRef (p : subProblemRef) (σ : Store) (branchOn : ℕ) (factor : ℚ)
    (smallerOrEqualThan : ℚ) (cLen : ℕ) : subProblemRef × Store :=
  let cs := copyRef p σ
  let newConstraint : bnbConstraint :=
    ⟨branchOn, smallerOrEqualThan, (List.replicate cLen 0).set branchOn factor⟩
  let app := appendSlice cs.2 cs.1.bnbConstraints newConstraint
  ({ cs.1 with bnbConstraints := app.1 }, app.2)

/-- A subproblem using the MostInfeasible heuristic, objective c = (0, 0),
both variables integer-constrained. -/
def mostInfExampleProblem : subProblem :=
  { id := 0, parent := 0, c := [0, 0], A := none, b := [], G := none, h := []
    integralityConstraints := [true, true]
    branchHeuristic := .BRANCH_MOST_INFEASIBLE, bnbConstraints := [] }

/-- A relaxation solution whose x = (1/2, 3/10): index 0 has the fractional
part exactly one half. -/
def mostInfExampleSolution : solution :=
  { problem := mostInfExampleProblem, x := [1/2, 3/10], z := 0, err := none }

/-- A one-variable maximization problem: maximize x with coefficient 1,
0 ≤ x ≤ 5. -/
def maxExampleProblem : Problem :=
  { «variables» := [{ name := "x", coefficient := 1, integer := false
                      upper := some 5, lower := 0 }]
    maximize := true, constraints := []
    branchingHeuristic := .BRANCH_MAXFUN, workers := 1 }

/-- A one-variable subproblem with an integrality constraint. -/
def checkExampleProblem : subProblem :=
  { id := 0, parent := 0, c := [1], A := none, b := [], G := none, h := []
    integralityConstraints := [true]
    branchHeuristic := .BRANCH_MAXFUN, bnbConstraints := [] }

/-- An incumbent with objective value 5. -/
def checkExampleIncumbent : solution :=
  { problem := checkExampleProblem, x := [1], z := 5, err := none }

/-- An error-free integer-feasible candidate with objective value 3 < 5. -/
def checkExampleCandidate : solution :=
  { problem := checkExampleProblem, x := [2], z := 3, err := none }

/-- A two-variable subproblem with the MaxFun heuristic: only variable 0 is
integer-constrained, so branching selects index 0. -/
def branchExampleProblem : subProblem :=
  { id := 0, parent := 0, c := [1, 0], A := none, b := [], G := none, h := []
    integralityConstraints := [true, false]
    branchHeuristic := .BRANCH_MAXFUN, bnbConstraints := [] }

/-- A relaxation solution with the fractional value 7/2 at the branch
variable. -/
def branchExampleSolution : solution :=
  { problem := branchExampleProblem, x := [7/2, 0], z := 0, err := none }

/-- A reference-level subproblem whose bnbConstraints live at reference 0. -/
def refExampleProblem : subProblemRef :=
  { id := 7, parent := 3, c := 10, A := 11, b := 12, G := 13, h := 14
    integralityConstraints := 15, branchHeuristic := .BRANCH_MAXFUN
    bnbConstraints := ⟨0, 1, 1⟩ }

/-- A store in which reference 0 holds one constraint and reference 1 is the
next free cell. -/
def refExampleStore : Store :=
  { next := 1, mem := fun _ => [⟨0, 4, [1, 0]⟩] }

/-- A three-variable subproblem using the Naive heuristic with one previous
branch on variable 1, so the wrap-around cursor loop runs. -/
def naiveExampleProblem : subProblem :=
  { id := 0, parent := 0, c := [0, 0, 0], A := none, b := [], G := none, h := []
    integralityConstraints := [false, true, false]
    branchHeuristic := .BRANCH_NAIVE
    bnbConstraints := [⟨1, 0, [0, 1, 0]⟩] }

/-- A solution over naiveExampleProblem. -/
def naiveExampleSolution : solution :=
  { problem := naiveExampleProblem, x := [0, 0, 0], z := 0, err := none }

/-- A concrete 1x1 equality-constraint matrix with entry 3. -/
def convExampleA : Mat :=
  ⟨1, 1, fun _ _ => 3⟩

/-- A concrete 1x1 inequality-constraint matrix with entry 4. -/
def convExampleG : Mat :=
  ⟨1, 1, fun _ _ => 4⟩

/-- The constraint x + x ≤ 5, whose expression multiset has two copies of
(x, 1). -/
def dupExampleC1 : Constraint :=
  { expressions := [⟨1, "x"⟩, ⟨1, "x"⟩], rhs := 5, inequality := true }

/-- The constraint x ≤ 3, whose expression multiset has one copy of
(x, 1). -/
def dupExampleC2 : Constraint :=
  { expressions := [⟨1, "x"⟩], rhs := 3, inequality := true }

/-- A three-constraint list: positions 0 and 2 share the expression set
over variable a with rhs 5 and 2; position 1 is over variable b. -/
def dupExampleList : List Constraint :=
  [{ expressions := [⟨1, "a"⟩], rhs := 5, inequality := true },
   { expressions := [⟨1, "b"⟩], rhs := 7, inequality := true },
   { expressions := [⟨1, "a"⟩], rhs := 2, inequality := true }]

end GoMILP

/-- Helper for C8: a fold-style congruence for flatMap. -/
theorem GoMILP.flatMap_congr_mem {α : Type} (l : List ℕ) (f g : ℕ → List α)
    (h : ∀ x ∈ l, f x = g x) : l.flatMap f = l.flatMap g := by
  induction l with
  | nil => rfl
  | cons hd tl ih =>
      simp only [List.flatMap_cons]
      rw [h hd (List.mem_cons_self _ _), ih fun x hx => h x (List.mem_cons_of_mem _ hx)]

/-- Helper for C8: flatMap over a list whose function is everywhere empty. -/
theorem GoMILP.flatMap_eq_nil_of_forall {α : Type} (l : List ℕ) (f : ℕ → List α)
    (h : ∀ x ∈ l, f x = []) : l.flatMap f = [] := by
  induction l with
  | nil => rfl
  | cons hd tl ih =>
      simp only [List.flatMap_cons]
      rw [h hd (List.mem_cons_self _ _), ih fun x hx => h x (List.mem_cons_of_mem _ hx)]
      rfl

/-- Helper for C8: filtering the range for one index. -/
theorem GoMILP.filter_range_single (n j : ℕ) (hj : j < n) :
    (List.range n).filter (fun x => decide (x = j)) = [j] := by
  induction n with
  | zero => omega
  | succ m ih =>
      rw [List.range_succ, List.filter_append]
      by_cases hjm : j < m
      · rw [ih hjm, List.filter_singleton]
        simp [show ¬(m = j) by omega]
      · have hjeq : j = m := by omega
        subst hjeq
        have h1 : (List.range j).filter (fun x => decide (x = j)) = [] := by
          rw [List.filter_eq_nil_iff]
          intro a ha
          simp only [List.mem_range] at ha
          simp only [decide_eq_true_eq]
          omega
        rw [h1, List.filter_singleton]
        simp

/-- Helper for C8: flatMap over the range of a function supported at one
point. -/
theorem GoMILP.flatMap_range_single {α : Type} (n i : ℕ) (hi : i < n) (a : List α) :
    (List.range n).flatMap (fun k => if k = i then a else []) = a := by
  induction n with
  | zero => omega
  | succ m ih =>
      rw [List.range_succ, List.flatMap_append]
      by_cases him : i < m
      · rw [ih him]
        simp only [List.flatMap_cons, List.flatMap_nil]
        rw [if_neg (by omega)]
        simp
      · have hieq : i = m := by omega
        subst hieq
        rw [GoMILP.flatMap_eq_nil_of_forall _ _ fun x hx => by
          simp only [List.mem_range] at hx
          rw [if_neg (by omega)]]
        simp only [List.flatMap_cons, List.flatMap_nil, if_pos rfl]
        simp

/-- Helper for C8: flatMap over the range of a function supported at two
points i < j. -/
theorem GoMILP.flatMap_range_pair {α : Type} (n i j : ℕ) (hij : i < j) (hjn : j < n)
    (a bp : List α) :
    (List.range n).flatMap
        (fun k => if k = i then a else if k = j then bp else []) = a ++ bp := by
  induction n with
  | zero => omega
  | succ m ih =>
      rw [List.range_succ, List.flatMap_append]
      by_cases hjm : j < m
      · rw [ih hjm]
        simp only [List.flatMap_cons, List.flatMap_nil]
        rw [if_neg (by omega), if_neg (by omega)]
        simp
      · have hjeq : j = m := by omega
        subst hjeq
        have hpre : (List.range j).flatMap
            (fun k => if k = i then a else if k = j then bp else []) =
            (List.range j).flatMap (fun k => if k = i then a else []) := by
          apply GoMILP.flatMap_congr_mem
          intro x hx
          simp only [List.mem_range] at hx
          by_cases hxi : x = i
          · rw [if_pos hxi, if_pos hxi]
          · rw [if_neg hxi, if_neg hxi, if_neg (by omega)]
        rw [hpre, GoMILP.flatMap_range_single j i (by omega) a]
        simp [show ¬(j = i) by omega]

/-- C8 counterexample: the constraints x + x ≤ 5 and x ≤ 3 have different
(variable, coefficient) multisets — each is unique in the problem — yet
removeDuplicateConstraints does not retain the first one: the code compares
constraints by the deduplicated set of (name, coefficient) strings, so the
two are treated as duplicates and only the smaller-rhs one survives. -/
theorem GoMILP.removeDuplicateConstraints_multiset_counterexample :
    (Multiset.ofList (GoMILP.dupExampleC1.expressions.map fun e => (e.varName, e.coef)) ≠
      Multiset.ofList (GoMILP.dupExampleC2.expressions.map fun e => (e.varName, e.coef))) ∧
    GoMILP.removeDuplicateConstraints [GoMILP.dupExampleC1, GoMILP.dupExampleC2] =
      [GoMILP.dupExampleC2] ∧
    GoMILP.dupExampleC1 ∉
      GoMILP.removeDuplicateConstraints [GoMILP.dupExampleC1, GoMILP.dupExampleC2] := by
  refine ⟨by decide, by decide, by decide⟩

/-- C8 (amended): constraints are identified by the set (not multiset) of
their (variable, coefficient) pairs; when exactly two constraints i < j
share a set, their rhs differ, and every other constraint's set is unique,
the result retains every other constraint in order followed by exactly the
shared-set constraint with the strictly smaller rhs. -/
theorem GoMILP.removeDuplicateConstraints_keeps_smaller_rhs
    (cs : List GoMILP.Constraint) (i j : ℕ) (hij : i < j) (hjn : j < cs.length)
    (hset : GoMILP.cSet (cs.getD i default) = GoMILP.cSet (cs.getD j default))
    (hrhs : (cs.getD i default).rhs ≠ (cs.getD j default).rhs)
    (huniq : ∀ k, k < cs.length → k ≠ i → k ≠ j →
      ∀ l, l < cs.length → l ≠ k →
        GoMILP.cSet (cs.getD l default) ≠ GoMILP.cSet (cs.getD k default)) :
    GoMILP.removeDuplicateConstraints cs =
      ((List.range cs.length).filter fun k => decide (k ≠ i) && decide (k ≠ j)).map
        (fun k => cs.getD k default) ++
      [cs.getD
        (if (cs.getD i default).rhs < (cs.getD j default).rhs then i else j)
        default] := by
  have hin : i < cs.length := by omega
  have hget : ∀ k, (cs.map GoMILP.cSet).getD k ∅ =
      GoMILP.cSet (cs.getD k default) ∨ k ≥ cs.length := by
    intro k
    by_cases hk : k < cs.length
    · left
      rw [List.getD_eq_getElem _ _ (by simpa using hk), List.getElem_map,
        List.getD_eq_getElem _ _ hk]
    · right
      omega
  have hgetlt : ∀ k, k < cs.length → (cs.map GoMILP.cSet).getD k ∅ =
      GoMILP.cSet (cs.getD k default) := by
    intro k hk
    rcases hget k with h | h
    · exact h
    · omega
  have hlen : (cs.map GoMILP.cSet).length = cs.length := List.length_map _ _
  -- characterize the inner j-loop at each index
  have hdm_i : GoMILP.dupMatches (cs.map GoMILP.cSet) i = [j] := by
    unfold GoMILP.dupMatches
    rw [hlen]
    rw [List.filter_congr (q := fun x => decide (x = j)) ?_]
    · exact GoMILP.filter_range_single _ _ hjn
    · intro x hx
      simp only [List.mem_range] at hx
      by_cases hxj : x = j
      · subst hxj
        rw [hgetlt x hx, hgetlt i hin,
          decide_eq_true (p := x ≠ i) (by omega),
          decide_eq_true (p := GoMILP.cSet (cs.getD x default) =
            GoMILP.cSet (cs.getD i default)) hset.symm]
        simp
      · by_cases hxi : x = i
        · subst hxi
          rw [decide_eq_false (p := x ≠ x) (by omega)]
          simp [hxj]
        · have hne : ¬(GoMILP.cSet (cs.getD x default) =
              GoMILP.cSet (cs.getD i default)) :=
            fun hcc => huniq x hx hxi hxj i hin (by omega) hcc.symm
          rw [hgetlt x hx, hgetlt i hin, decide_eq_false hne]
          simp [hxj]
  have hdm_j : GoMILP.dupMatches (cs.map GoMILP.cSet) j = [i] := by
    unfold GoMILP.dupMatches
    rw [hlen]
    rw [List.filter_congr (q := fun x => decide (x = i)) ?_]
    · exact GoMILP.filter_range_single _ _ hin
    · intro x hx
      simp only [List.mem_range] at hx
      by_cases hxi : x = i
      · subst hxi
        rw [hgetlt x hx, hgetlt j hjn,
          decide_eq_true (p := x ≠ j) (by omega),
          decide_eq_true (p := GoMILP.cSet (cs.getD x default) =
            GoMILP.cSet (cs.getD j default)) hset]
        simp
      · by_cases hxj : x = j
        · subst hxj
          rw [decide_eq_false (p := x ≠ x) (by omega)]
          simp [hxi]
        · have hne : ¬(GoMILP.cSet (cs.getD x default) =
              GoMILP.cSet (cs.getD j default)) :=
            fun hcc => huniq x hx hxi hxj j hjn (by omega) hcc.symm
          rw [hgetlt x hx, hgetlt j hjn, decide_eq_false hne]
          simp [hxi]
  have hdm_other : ∀ k, k < cs.length → k ≠ i → k ≠ j →
      GoMILP.dupMatches (cs.map GoMILP.cSet) k = [] := by
    intro k hk hki hkj
    unfold GoMILP.dupMatches
    rw [hlen, List.filter_eq_nil_iff]
    intro x hx
    simp only [List.mem_range] at hx
    simp only [Bool.and_eq_true, decide_eq_true_eq, not_and]
    intro hxk
    rw [hgetlt x hx, hgetlt k hk]
    exact huniq k hk hki hkj x hx hxk
  -- unfold the function and rewrite its three components
  rw [GoMILP.removeDuplicateConstraints]
  have hretained : ((List.range cs.length).filter
      fun k => (GoMILP.dupMatches (cs.map GoMILP.cSet) k).isEmpty) =
      (List.range cs.length).filter fun k => decide (k ≠ i) && decide (k ≠ j) := by
    apply List.filter_congr
    intro x hx
    simp only [List.mem_range] at hx
    by_cases hxi : x = i
    · subst hxi
      rw [hdm_i]
      simp
    · by_cases hxj : x = j
      · subst hxj
        rw [hdm_j]
        simp [hxi]
      · rw [hdm_other x hx hxi hxj]
        simp [hxi, hxj]
  have hflat : ((List.range cs.length).flatMap fun k =>
      (GoMILP.dupMatches (cs.map GoMILP.cSet) k).map fun l =>
        (cs.getD k default, cs.getD l default)) =
      [(cs.getD i default, cs.getD j default),
        (cs.getD j default, cs.getD i default)] := by
    rw [GoMILP.flatMap_congr_mem _ _
      (fun k => if k = i then [(cs.getD i default, cs.getD j default)]
        else if k = j then [(cs.getD j default, cs.getD i default)] else []) ?_]
    · exact GoMILP.flatMap_range_pair _ _ _ hij hjn _ _
    · intro x hx
      simp only [List.mem_range] at hx
      by_cases hxi : x = i
      · subst hxi
        rw [hdm_i]
        simp
      · by_cases hxj : x = j
        · subst hxj
          rw [hdm_j]
          simp [hxi]
        · rw [hdm_other x hx hxi hxj]
          simp [hxi, hxj]
  simp only [hretained, hflat]
  by_cases hlt : (cs.getD i default).rhs < (cs.getD j default).rhs
  · rw [if_pos hlt]
    simp only [List.filterMap_cons, List.filterMap_nil]
    rw [if_neg (by simpa using le_of_lt hlt), if_pos (by simpa using hlt)]
  · have hlt2 : (cs.getD j default).rhs < (cs.getD i default).rhs :=
      lt_of_le_of_ne (le_of_not_lt hlt) fun hcc => hrhs hcc.symm
    rw [if_neg hlt]
    simp only [List.filterMap_cons, List.filterMap_nil]
    rw [if_pos (by simpa using hlt2), if_neg (by simpa using le_of_lt hlt2)]

/-- C8 witness: in the three-constraint example (indices 0 and 2 share the
set over variable a with rhs 5 and 2; index 1 over b is unique), the result
retains the unique constraint and exactly the smaller-rhs duplicate. -/
theorem GoMILP.removeDuplicateConstraints_keeps_smaller_rhs_witness :
    (GoMILP.cSet (GoMILP.dupExampleList.getD 0 default) =
      GoMILP.cSet (GoMILP.dupExampleList.getD 2 default)) ∧
    ((GoMILP.dupExampleList.getD 0 default).rhs ≠
      (GoMILP.dupExampleList.getD 2 default).rhs) ∧
    GoMILP.removeDuplicateConstraints GoMILP.dupExampleList =
      ((List.range GoMILP.dupExampleList.length).filter
          fun k => decide (k ≠ 0) && decide (k ≠ 2)).map
        (fun k => GoMILP.dupExampleList.getD k default) ++
      [GoMILP.dupExampleList.getD
        (if (GoMILP.dupExampleList.getD 0 default).rhs <
            (GoMILP.dupExampleList.getD 2 default).rhs then 0 else 2)
        default] := by
  refine ⟨by decide, by decide,
    GoMILP.removeDuplicateConstraints_keeps_smaller_rhs GoMILP.dupExampleList 0 2
      (by decide) (by decide) (by decide) (by decide) ?_⟩
  intro k hk hki hkj l hl hlk
  have hk3 : k < 3 := by simpa [GoMILP.dupExampleList] using hk
  have hl3 : l < 3 := by simpa [GoMILP.dupExampleList] using hl
  have hk1 : k = 1 := by omega
  subst hk1
  have hl02 : l = 0 ∨ l = 2 := by omega
  rcases hl02 with h | h <;> subst h <;> decide

/-- C7: for dimensionally consistent inputs with G present,
convertToEqualities returns c' = c ++ zeros, b' = b ++ h, and the
(m_A + m_G) x (n + m_G) matrix whose top-left block is A (vacuous when A is
absent), bottom-left block is G, top-right block is zero, and bottom-right
block is the m_G x m_G identity. -/
theorem GoMILP.convertToEqualities_blocks
    (c b h : List ℚ) (A : Option GoMILP.Mat) (g : GoMILP.Mat)
    (hg1 : g.rows = h.length) (hg2 : g.cols = c.length) (hh : h ≠ [])
    (hA : ∀ a, A = some a → a.rows = b.length ∧ a.cols = c.length)
    (hbA : A = none → b = []) :
    ∃ out : List ℚ × GoMILP.Mat × List ℚ,
      GoMILP.convertToEqualities c A b (some g) h = some out ∧
      out.1 = c ++ List.replicate h.length 0 ∧
      out.2.2 = b ++ h ∧
      out.2.1.rows = b.length + h.length ∧
      out.2.1.cols = c.length + h.length ∧
      (∀ a, A = some a → ∀ i j, i < b.length → j < c.length →
        out.2.1.entry i j = a.entry i j) ∧
      (∀ i j, i < h.length → j < c.length →
        out.2.1.entry (b.length + i) j = g.entry i j) ∧
      (∀ i j, i < b.length → j < h.length →
        out.2.1.entry i (c.length + j) = 0) ∧
      (∀ i j, i < h.length → j < h.length →
        out.2.1.entry (b.length + i) (c.length + j) = if i = j then 1 else 0) := by
  have hhe : h.isEmpty = false := by
    cases h with
    | nil => exact absurd rfl hh
    | cons hd tl => rfl
  cases A with
  | some a =>
      obtain ⟨ha1, ha2⟩ := hA a rfl
      have hs1 : GoMILP.sanityCheckDimensions c (some a) b (some g) h = false := by
        simp [GoMILP.sanityCheckDimensions, hg1, hg2, ha1, ha2, hhe]
      have hs2 : GoMILP.sanityCheckDimensions (c ++ List.replicate h.length 0)
          (some ((((GoMILP.Mat.zero (b.length + h.length)
              (c.length + h.length)).copyInto a 0 b.length 0
              c.length).copyInto g b.length (b.length + h.length) 0
              c.length).setDiagOnes b.length c.length h.length))
          (b ++ h) none [] = false := by
        simp [GoMILP.sanityCheckDimensions, GoMILP.Mat.setDiagOnes,
          GoMILP.Mat.copyInto, GoMILP.Mat.zero]
      have heq : GoMILP.convertToEqualities c (some a) b (some g) h =
          some (c ++ List.replicate h.length 0,
            (((GoMILP.Mat.zero (b.length + h.length)
                (c.length + h.length)).copyInto a 0 b.length 0
                c.length).copyInto g b.length (b.length + h.length) 0
                c.length).setDiagOnes b.length c.length h.length,
            b ++ h) := by
        simp only [GoMILP.convertToEqualities, hs1, Bool.false_eq_true, if_false,
          hs2]
      refine ⟨_, heq, rfl, rfl, rfl, rfl, ?_, ?_, ?_, ?_⟩
      · intro a' ha' i j hi hj
        cases ha'
        simp only [GoMILP.Mat.setDiagOnes, GoMILP.Mat.copyInto, GoMILP.Mat.zero]
        rw [if_neg (by omega), if_neg (by omega),
          if_pos ⟨by omega, by omega, by omega, by omega⟩]
        simp
      · intro i j hi hj
        simp only [GoMILP.Mat.setDiagOnes, GoMILP.Mat.copyInto, GoMILP.Mat.zero]
        rw [if_neg (by omega), if_pos ⟨by omega, by omega, by omega, by omega⟩]
        congr 1
        omega
      · intro i j hi hj
        simp only [GoMILP.Mat.setDiagOnes, GoMILP.Mat.copyInto, GoMILP.Mat.zero]
        rw [if_neg (by omega), if_neg (by omega), if_neg (by omega)]
      · intro i j hi hj
        simp only [GoMILP.Mat.setDiagOnes, GoMILP.Mat.copyInto, GoMILP.Mat.zero]
        by_cases hij : i = j
        · rw [if_pos ⟨by omega, by omega, by omega⟩, if_pos hij]
        · rw [if_neg (by omega), if_neg (by omega), if_neg (by omega),
            if_neg hij]
  | none =>
      have hb0 : b = [] := hbA rfl
      subst hb0
      have hs1 : GoMILP.sanityCheckDimensions c none [] (some g) h = false := by
        simp [GoMILP.sanityCheckDimensions, hg1, hg2, hhe]
      have hs2 : GoMILP.sanityCheckDimensions (c ++ List.replicate h.length 0)
          (some (((GoMILP.Mat.zero (List.length ([] : List ℚ) + h.length)
              (c.length + h.length)).copyInto g (List.length ([] : List ℚ))
              (List.length ([] : List ℚ) + h.length) 0
              c.length).setDiagOnes (List.length ([] : List ℚ)) c.length h.length))
          (([] : List ℚ) ++ h) none [] = false := by
        simp [GoMILP.sanityCheckDimensions, GoMILP.Mat.setDiagOnes,
          GoMILP.Mat.copyInto, GoMILP.Mat.zero]
      have heq : GoMILP.convertToEqualities c none [] (some g) h =
          some (c ++ List.replicate h.length 0,
            ((GoMILP.Mat.zero (List.length ([] : List ℚ) + h.length)
                (c.length + h.length)).copyInto g (List.length ([] : List ℚ))
                (List.length ([] : List ℚ) + h.length) 0
                c.length).setDiagOnes (List.length ([] : List ℚ)) c.length h.length,
            ([] : List ℚ) ++ h) := by
        simp only [GoMILP.convertToEqualities, hs1, Bool.false_eq_true, if_false,
          hs2]
      refine ⟨_, heq, rfl, rfl, rfl, rfl, ?_, ?_, ?_, ?_⟩
      · intro a' ha'
        exact Option.noConfusion ha'
      · intro i j hi hj
        simp only [GoMILP.Mat.setDiagOnes, GoMILP.Mat.copyInto, GoMILP.Mat.zero,
          List.length_nil]
        rw [if_neg (by omega), if_pos ⟨by omega, by omega, by omega, by omega⟩]
        congr 1
        omega
      · intro i j hi hj
        simp only [List.length_nil] at hi
        omega
      · intro i j hi hj
        simp only [GoMILP.Mat.setDiagOnes, GoMILP.Mat.copyInto, GoMILP.Mat.zero,
          List.length_nil]
        by_cases hij : i = j
        · rw [if_pos ⟨by omega, by omega, by omega⟩, if_pos hij]
        · rw [if_neg (by omega), if_neg (by omega), if_neg hij]

/-- C7 witness: for c = [1], A = [[3]], b = [2], G = [[4]], h = [5], the
converter succeeds and exhibits the claimed block structure. -/
theorem GoMILP.convertToEqualities_blocks_witness :
    ([(5:ℚ)] ≠ []) ∧
    (∃ out : List ℚ × GoMILP.Mat × List ℚ,
      GoMILP.convertToEqualities [1] (some GoMILP.convExampleA) [2]
          (some GoMILP.convExampleG) [5] = some out ∧
      out.1 = [(1:ℚ)] ++ List.replicate [(5:ℚ)].length 0 ∧
      out.2.2 = [(2:ℚ)] ++ [(5:ℚ)] ∧
      out.2.1.rows = [(2:ℚ)].length + [(5:ℚ)].length ∧
      out.2.1.cols = [(1:ℚ)].length + [(5:ℚ)].length ∧
      (∀ a, some GoMILP.convExampleA = some a →
        ∀ i j, i < [(2:ℚ)].length → j < [(1:ℚ)].length →
          out.2.1.entry i j = a.entry i j) ∧
      (∀ i j, i < [(5:ℚ)].length → j < [(1:ℚ)].length →
        out.2.1.entry ([(2:ℚ)].length + i) j = GoMILP.convExampleG.entry i j) ∧
      (∀ i j, i < [(2:ℚ)].length → j < [(5:ℚ)].length →
        out.2.1.entry i ([(1:ℚ)].length + j) = 0) ∧
      (∀ i j, i < [(5:ℚ)].length → j < [(5:ℚ)].length →
        out.2.1.entry ([(2:ℚ)].length + i) ([(1:ℚ)].length + j) =
          if i = j then 1 else 0)) := by
  have hh : [(5:ℚ)] ≠ [] := by simp
  refine ⟨hh, GoMILP.convertToEqualities_blocks [1] [2] [5]
    (some GoMILP.convExampleA) GoMILP.convExampleG rfl rfl hh ?_ ?_⟩
  · intro a ha
    cases ha
    exact ⟨rfl, rfl⟩
  · intro hx
    exact Option.noConfusion hx

/-- Helper for C10: the range loop of naiveBranchPoint leaves its accumulator
unchanged when no entry is true. -/
theorem GoMILP.lastTrueLoop_const (ics : List Bool) (i acc : ℕ)
    (h : ∀ bv ∈ ics, bv = false) : GoMILP.lastTrueLoop ics i acc = acc := by
  induction ics generalizing i acc with
  | nil => rfl
  | cons bv rest ih =>
      have hbv : bv = false := h bv (List.mem_cons_self _ _)
      simp only [GoMILP.lastTrueLoop, hbv, Bool.false_eq_true, if_false]
      exact ih _ _ fun b hb => h b (List.mem_cons_of_mem _ hb)

/-- Helper for C10: when some entry is true, the range loop of
naiveBranchPoint returns the position of the last true entry. -/
theorem GoMILP.lastTrueLoop_finds (ics : List Bool) (h : true ∈ ics) :
    ∀ i acc, ∃ k, k < ics.length ∧ ics.getD k false = true ∧
      GoMILP.lastTrueLoop ics i acc = i + k := by
  induction ics with
  | nil => cases h
  | cons bv rest ih =>
      intro i acc
      by_cases hr : true ∈ rest
      · obtain ⟨k, hk, hkt, hloop⟩ := ih hr (i + 1) (if bv then i else acc)
        refine ⟨k + 1, by simpa using hk, by simpa using hkt, ?_⟩
        simp only [GoMILP.lastTrueLoop, hloop]
        omega
      · have hbv : bv = true := by
          rcases List.mem_cons.mp h with h1 | h1
          · exact h1.symm
          · exact absurd h1 hr
        have hrest : ∀ b ∈ rest, b = false := by
          intro b hb
          cases b
          · rfl
          · exact absurd hb hr
        refine ⟨0, by simp, by simp [hbv], ?_⟩
        simp only [GoMILP.lastTrueLoop, hbv, if_true]
        rw [GoMILP.lastTrueLoop_const rest _ _ hrest]
        omega

/-- Helper for C10: from any cursor position below n there is a cyclic step
count k with 1 ≤ k ≤ n reaching any given index j < n. -/
theorem GoMILP.cyclic_step_exists (n cursor j : ℕ) (hj : j < n) (hcur : cursor < n) :
    ∃ k, 1 ≤ k ∧ k ≤ n ∧ (cursor + k) % n = j := by
  by_cases hlt : cursor < j
  · refine ⟨j - cursor, by omega, by omega, ?_⟩
    rw [show cursor + (j - cursor) = j by omega, Nat.mod_eq_of_lt hj]
  · refine ⟨n - cursor + j, by omega, by omega, ?_⟩
    rw [show cursor + (n - cursor + j) = n + j by omega, Nat.add_mod_left,
      Nat.mod_eq_of_lt hj]

/-- Helper for C10: the wrap-around cursor loop of naiveBranchPoint finds an
integer-constrained index whenever one is reachable within the provided
fuel. -/
theorem GoMILP.cursorLoop_finds (n : ℕ) (mask : List Bool) (hmask : mask.length = n) :
    ∀ fuel cursor, cursor < n →
      (∃ k, 1 ≤ k ∧ k ≤ fuel ∧ mask.getD ((cursor + k) % n) false = true) →
      ∃ i, GoMILP.cursorLoop n mask cursor fuel = some i ∧ i < n ∧
        mask.getD i false = true := by
  intro fuel
  induction fuel with
  | zero =>
      intro cursor hcur hex
      obtain ⟨k, h1, h2, _⟩ := hex
      omega
  | succ fuel ih =>
      intro cursor hcur hex
      have hn : 0 < n := by omega
      have hc1lt : (if cursor = n - 1 then 0 else cursor + 1) < n := by
        by_cases hc : cursor = n - 1 <;> simp only [hc, if_true, if_false] <;> omega
      have hc1eq : (if cursor = n - 1 then 0 else cursor + 1) = (cursor + 1) % n := by
        by_cases hc : cursor = n - 1
        · simp only [hc, if_true]
          rw [show n - 1 + 1 = n by omega, Nat.mod_self]
        · simp only [hc, if_false]
          rw [Nat.mod_eq_of_lt (by omega)]
      obtain ⟨k, hk1, hk2, hkt⟩ := hex
      simp only [GoMILP.cursorLoop]
      rw [dif_pos (by omega : (if cursor = n - 1 then 0 else cursor + 1) < mask.length)]
      by_cases hfound :
          mask.get ⟨if cursor = n - 1 then 0 else cursor + 1, by omega⟩ = true
      · rw [if_pos hfound]
        refine ⟨_, rfl, hc1lt, ?_⟩
        rw [List.getD_eq_getElem _ _ (by omega)]
        simpa [List.get_eq_getElem] using hfound
      · rw [if_neg hfound]
        apply ih _ hc1lt
        have hkne1 : k ≠ 1 := by
          intro hk
          subst hk
          rw [← hc1eq] at hkt
          rw [List.getD_eq_getElem _ _ (by omega)] at hkt
          exact hfound (by simpa [List.get_eq_getElem] using hkt)
        refine ⟨k - 1, by omega, by omega, ?_⟩
        have harith : ((if cursor = n - 1 then 0 else cursor + 1) + (k - 1)) % n =
            (cursor + k) % n := by
          rw [hc1eq, Nat.mod_add_mod]
          congr 1
          omega
        rw [harith]
        exact hkt

/-- C10: for a solution whose integrality mask matches c in length, contains
at least one true entry, and whose branch constraints reference in-range
variables, naiveBranchPoint terminates (the wrap-around cursor loop exits
within c.length + 1 steps) and returns an integer-constrained index. -/
theorem GoMILP.naiveBranchPoint_finds (s : GoMILP.solution)
    (hlen : s.problem.integralityConstraints.length = s.problem.c.length)
    (hex : true ∈ s.problem.integralityConstraints)
    (hwf : ∀ bc ∈ s.problem.bnbConstraints,
      bc.branchedVariable < s.problem.c.length) :
    ∃ i, GoMILP.naiveBranchPoint s = some i ∧
      s.problem.integralityConstraints.getD i false = true := by
  unfold GoMILP.naiveBranchPoint
  by_cases hb : s.problem.bnbConstraints.length = 0
  · rw [if_pos hb]
    obtain ⟨k, hk, hkt, hloop⟩ := GoMILP.lastTrueLoop_finds _ hex 0 0
    refine ⟨0 + k, by rw [hloop], by simpa using hkt⟩
  · rw [if_neg hb]
    cases hlast : s.problem.bnbConstraints.getLast? with
    | none =>
        rw [List.getLast?_eq_none_iff] at hlast
        rw [hlast] at hb
        exact absurd rfl hb
    | some lc =>
        have hmem : lc ∈ s.problem.bnbConstraints := by
          have := List.getLast?_eq_getLast_of_ne_nil
              (l := s.problem.bnbConstraints) ?hne
          case hne =>
            intro h0
            rw [h0] at hb
            exact hb rfl
          rw [hlast] at this
          cases this
          exact List.getLast_mem _
        have hlt : lc.branchedVariable < s.problem.c.length := hwf lc hmem
        obtain ⟨j, hjlt, hjt⟩ := List.mem_iff_getElem.mp hex
        have hjn : j < s.problem.c.length := hlen ▸ hjlt
        obtain ⟨k, hk1, hk2, hkeq⟩ :=
          GoMILP.cyclic_step_exists s.problem.c.length lc.branchedVariable j hjn hlt
        obtain ⟨i, hiloop, hin, hit⟩ :=
          GoMILP.cursorLoop_finds s.problem.c.length
            s.problem.integralityConstraints hlen
            (s.problem.c.length + 1) lc.branchedVariable hlt
            ⟨k, hk1, by omega, by
              rw [hkeq, List.getD_eq_getElem _ _ (by omega)]
              exact hjt⟩
        exact ⟨i, hiloop, hit⟩

/-- C10 witness: for the example solution (mask (false, true, false), one
previous branch on variable 1), naiveBranchPoint's cursor loop wraps around
and returns an index whose mask entry is true. -/
theorem GoMILP.naiveBranchPoint_finds_witness :
    GoMILP.naiveExampleSolution.problem.integralityConstraints.length =
      GoMILP.naiveExampleSolution.problem.c.length ∧
    true ∈ GoMILP.naiveExampleSolution.problem.integralityConstraints ∧
    (∀ bc ∈ GoMILP.naiveExampleSolution.problem.bnbConstraints,
      bc.branchedVariable < GoMILP.naiveExampleSolution.problem.c.length) ∧
    (∃ i, GoMILP.naiveBranchPoint GoMILP.naiveExampleSolution = some i ∧
      GoMILP.naiveExampleSolution.problem.integralityConstraints.getD i false =
        true) := by
  have h1 : GoMILP.naiveExampleSolution.problem.integralityConstraints.length =
      GoMILP.naiveExampleSolution.problem.c.length := rfl
  have h2 : true ∈ GoMILP.naiveExampleSolution.problem.integralityConstraints := by
    simp [GoMILP.naiveExampleSolution, GoMILP.naiveExampleProblem]
  have h3 : ∀ bc ∈ GoMILP.naiveExampleSolution.problem.bnbConstraints,
      bc.branchedVariable < GoMILP.naiveExampleSolution.problem.c.length := by
    intro bc hbc
    simp only [GoMILP.naiveExampleSolution, GoMILP.naiveExampleProblem,
      List.mem_singleton] at hbc
    subst hbc
    norm_num [GoMILP.naiveExampleSolution, GoMILP.naiveExampleProblem]
  exact ⟨h1, h2, h3, GoMILP.naiveBranchPoint_finds _ h1 h2 h3⟩

/-- C9: producing a child via getChild leaves the c, A, b, G, h and
integrality-mask references shared with the parent, gives the child a
freshly allocated bnbConstraints list holding the parent's constraints
extended by exactly the new constraint, and leaves the parent's
bnbConstraints list unchanged in the store. -/
theorem GoMILP.getChildRef_frame (p : GoMILP.subProblemRef) (σ : GoMILP.Store)
    (branchOn : ℕ) (factor smallerOrEqualThan : ℚ) (cLen : ℕ)
    (hfresh : p.bnbConstraints.ref < σ.next) :
    (GoMILP.getChildRef p σ branchOn factor smallerOrEqualThan cLen).1.c = p.c ∧
    (GoMILP.getChildRef p σ branchOn factor smallerOrEqualThan cLen).1.A = p.A ∧
    (GoMILP.getChildRef p σ branchOn factor smallerOrEqualThan cLen).1.b = p.b ∧
    (GoMILP.getChildRef p σ branchOn factor smallerOrEqualThan cLen).1.G = p.G ∧
    (GoMILP.getChildRef p σ branchOn factor smallerOrEqualThan cLen).1.h = p.h ∧
    (GoMILP.getChildRef p σ branchOn factor
        smallerOrEqualThan cLen).1.integralityConstraints =
      p.integralityConstraints ∧
    (GoMILP.getChildRef p σ branchOn factor
        smallerOrEqualThan cLen).1.bnbConstraints.ref ≠ p.bnbConstraints.ref ∧
    GoMILP.sliceContent (GoMILP.getChildRef p σ branchOn factor smallerOrEqualThan cLen).2
        (GoMILP.getChildRef p σ branchOn factor smallerOrEqualThan cLen).1.bnbConstraints =
      GoMILP.sliceContent σ p.bnbConstraints ++
        [⟨branchOn, smallerOrEqualThan, (List.replicate cLen 0).set branchOn factor⟩] ∧
    GoMILP.sliceContent (GoMILP.getChildRef p σ branchOn factor smallerOrEqualThan cLen).2
        p.bnbConstraints =
      GoMILP.sliceContent σ p.bnbConstraints := by
  have hne : p.bnbConstraints.ref ≠ σ.next := by omega
  have hne1 : p.bnbConstraints.ref ≠ σ.next + 1 := by omega
  set content := GoMILP.sliceContent σ p.bnbConstraints with hcontent
  refine ⟨rfl, rfl, rfl, rfl, rfl, rfl, ?_, ?_, ?_⟩
  · -- the child's reference is the second freshly allocated cell
    simp only [GoMILP.getChildRef, GoMILP.copyRef, GoMILP.allocSlice,
      GoMILP.appendSlice, GoMILP.sliceContent]
    simp only [lt_irrefl, if_false]
    omega
  · simp only [GoMILP.getChildRef, GoMILP.copyRef, GoMILP.allocSlice,
      GoMILP.appendSlice, GoMILP.sliceContent]
    simp only [lt_irrefl, if_false]
    simp only [← hcontent, if_pos, if_neg hne, List.take_length]
    rfl
  · simp only [GoMILP.getChildRef, GoMILP.copyRef, GoMILP.allocSlice,
      GoMILP.appendSlice, GoMILP.sliceContent]
    simp only [lt_irrefl, if_false]
    simp only [← hcontent, if_neg hne, if_neg hne1, List.take_length]
    rfl

/-- C9 witness: for the example parent (bnbConstraints at reference 0, one
constraint) in the example store (next free cell 1), getChild shares the six
read-only references, allocates a fresh bnbConstraints list equal to the
parent's plus the new constraint, and leaves the parent's list unchanged. -/
theorem GoMILP.getChildRef_frame_witness :
    GoMILP.refExampleProblem.bnbConstraints.ref < GoMILP.refExampleStore.next ∧
    ((GoMILP.getChildRef GoMILP.refExampleProblem GoMILP.refExampleStore 1 1 2 2).1.c =
        GoMILP.refExampleProblem.c ∧
      (GoMILP.getChildRef GoMILP.refExampleProblem GoMILP.refExampleStore 1 1 2 2).1.A =
        GoMILP.refExampleProblem.A ∧
      (GoMILP.getChildRef GoMILP.refExampleProblem GoMILP.refExampleStore 1 1 2 2).1.b =
        GoMILP.refExampleProblem.b ∧
      (GoMILP.getChildRef GoMILP.refExampleProblem GoMILP.refExampleStore 1 1 2 2).1.G =
        GoMILP.refExampleProblem.G ∧
      (GoMILP.getChildRef GoMILP.refExampleProblem GoMILP.refExampleStore 1 1 2 2).1.h =
        GoMILP.refExampleProblem.h ∧
      (GoMILP.getChildRef GoMILP.refExampleProblem
          GoMILP.refExampleStore 1 1 2 2).1.integralityConstraints =
        GoMILP.refExampleProblem.integralityConstraints ∧
      (GoMILP.getChildRef GoMILP.refExampleProblem
          GoMILP.refExampleStore 1 1 2 2).1.bnbConstraints.ref ≠
        GoMILP.refExampleProblem.bnbConstraints.ref ∧
      GoMILP.sliceContent
          (GoMILP.getChildRef GoMILP.refExampleProblem GoMILP.refExampleStore 1 1 2 2).2
          (GoMILP.getChildRef GoMILP.refExampleProblem
            GoMILP.refExampleStore 1 1 2 2).1.bnbConstraints =
        GoMILP.sliceContent GoMILP.refExampleStore
            GoMILP.refExampleProblem.bnbConstraints ++
          [⟨1, 2, (List.replicate 2 0).set 1 1⟩] ∧
      GoMILP.sliceContent
          (GoMILP.getChildRef GoMILP.refExampleProblem GoMILP.refExampleStore 1 1 2 2).2
          GoMILP.refExampleProblem.bnbConstraints =
        GoMILP.sliceContent GoMILP.refExampleStore
          GoMILP.refExampleProblem.bnbConstraints) := by
  have hfresh : GoMILP.refExampleProblem.bnbConstraints.ref <
      GoMILP.refExampleStore.next := by
    norm_num [GoMILP.refExampleProblem, GoMILP.refExampleStore]
  exact ⟨hfresh, GoMILP.getChildRef_frame _ _ _ _ _ _ hfresh⟩

/-- C6: for a solution s whose heuristic selects index j with value
v = x_j, branching yields exactly two children: the first extends the
parent's constraint list by the row with +1 at position j and right-hand
side floor(v); the second by the row with -1 at position j and right-hand
side -(floor(v) + 1); both rows are zero at every other position. -/
theorem GoMILP.branch_children (s : GoMILP.solution) (j : ℕ) (v : ℚ)
    (hbp : GoMILP.branchPoint s = some j) (hv : s.x.get? j = some v)
    (hj : j < s.problem.c.length) :
    ∃ p1 p2, GoMILP.branch s = some (p1, p2) ∧
      p1.bnbConstraints = s.problem.bnbConstraints ++
        [{ branchedVariable := j, hsharp := (⌊v⌋ : ℚ)
           gsharp := (List.replicate s.problem.c.length (0:ℚ)).set j 1 }] ∧
      p2.bnbConstraints = s.problem.bnbConstraints ++
        [{ branchedVariable := j, hsharp := -((⌊v⌋ : ℚ) + 1)
           gsharp := (List.replicate s.problem.c.length (0:ℚ)).set j (-1) }] ∧
      ((List.replicate s.problem.c.length (0:ℚ)).set j 1).getD j 0 = 1 ∧
      ((List.replicate s.problem.c.length (0:ℚ)).set j (-1)).getD j 0 = -1 ∧
      (∀ k, k ≠ j →
        ((List.replicate s.problem.c.length (0:ℚ)).set j 1).getD k 0 = 0) ∧
      (∀ k, k ≠ j →
        ((List.replicate s.problem.c.length (0:ℚ)).set j (-1)).getD k 0 = 0) := by
  have heq : GoMILP.branch s = some
      ({ GoMILP.getChild s.problem j 1 (⌊v⌋ : ℚ) with
          id := (GoMILP.getChild s.problem j 1 (⌊v⌋ : ℚ)).id + 1 },
        { GoMILP.getChild s.problem j (-1) (-((⌊v⌋ : ℚ) + 1)) with
          id := (GoMILP.getChild s.problem j (-1) (-((⌊v⌋ : ℚ) + 1))).id + 2 }) := by
    unfold GoMILP.branch
    rw [hbp]
    dsimp only
    rw [hv]
  refine ⟨_, _, heq, ?_, ?_, ?_, ?_, ?_, ?_⟩
  · simp [GoMILP.getChild, GoMILP.subProblem.copy]
  · simp [GoMILP.getChild, GoMILP.subProblem.copy]
  · rw [List.getD_eq_getElem?_getD, List.getElem?_set_self (by simpa using hj)]
    rfl
  · rw [List.getD_eq_getElem?_getD, List.getElem?_set_self (by simpa using hj)]
    rfl
  · intro k hk
    rw [List.getD_eq_getElem?_getD, List.getElem?_set_ne (fun h => hk h.symm)]
    by_cases hkl : k < s.problem.c.length
    · rw [List.getElem?_replicate_of_lt hkl]
      rfl
    · rw [List.getElem?_eq_none (by simpa using hkl)]
      rfl
  · intro k hk
    rw [List.getD_eq_getElem?_getD, List.getElem?_set_ne (fun h => hk h.symm)]
    by_cases hkl : k < s.problem.c.length
    · rw [List.getElem?_replicate_of_lt hkl]
      rfl
    · rw [List.getElem?_eq_none (by simpa using hkl)]
      rfl

/-- C6 witness: branching the example solution (MaxFun picks index 0, value
7/2) produces the two children with rows +1 / -1 at index 0 and right-hand
sides 3 and -4. -/
theorem GoMILP.branch_children_witness :
    GoMILP.branchPoint GoMILP.branchExampleSolution = some 0 ∧
    GoMILP.branchExampleSolution.x.get? 0 = some (7/2) ∧
    0 < GoMILP.branchExampleSolution.problem.c.length ∧
    (∃ p1 p2, GoMILP.branch GoMILP.branchExampleSolution = some (p1, p2) ∧
      p1.bnbConstraints = GoMILP.branchExampleSolution.problem.bnbConstraints ++
        [{ branchedVariable := 0, hsharp := (⌊(7/2 : ℚ)⌋ : ℚ)
           gsharp := (List.replicate
              GoMILP.branchExampleSolution.problem.c.length (0:ℚ)).set 0 1 }] ∧
      p2.bnbConstraints = GoMILP.branchExampleSolution.problem.bnbConstraints ++
        [{ branchedVariable := 0, hsharp := -((⌊(7/2 : ℚ)⌋ : ℚ) + 1)
           gsharp := (List.replicate
              GoMILP.branchExampleSolution.problem.c.length (0:ℚ)).set 0 (-1) }] ∧
      ((List.replicate GoMILP.branchExampleSolution.problem.c.length
          (0:ℚ)).set 0 1).getD 0 0 = 1 ∧
      ((List.replicate GoMILP.branchExampleSolution.problem.c.length
          (0:ℚ)).set 0 (-1)).getD 0 0 = -1 ∧
      (∀ k, k ≠ 0 →
        ((List.replicate GoMILP.branchExampleSolution.problem.c.length
            (0:ℚ)).set 0 1).getD k 0 = 0) ∧
      (∀ k, k ≠ 0 →
        ((List.replicate GoMILP.branchExampleSolution.problem.c.length
            (0:ℚ)).set 0 (-1)).getD k 0 = 0)) := by
  have hbp : GoMILP.branchPoint GoMILP.branchExampleSolution = some 0 := by
    norm_num [GoMILP.branchPoint, GoMILP.branchExampleSolution,
      GoMILP.branchExampleProblem, GoMILP.maxFunBranchPoint, GoMILP.maxFunLoop]
  have hv : GoMILP.branchExampleSolution.x.get? 0 = some (7/2) := rfl
  have hj : 0 < GoMILP.branchExampleSolution.problem.c.length := by
    norm_num [GoMILP.branchExampleSolution, GoMILP.branchExampleProblem]
  exact ⟨hbp, hv, hj, GoMILP.branch_children _ _ _ hbp hv hj⟩

/-- C5: checkSolution replaces the incumbent slot only when the candidate
carries no error, is integer feasible, and its z is strictly below the
incumbent's (vacuously below the +infinity of an absent incumbent); in
particular a candidate whose z is at least the incumbent's z is never
installed. -/
theorem GoMILP.checkSolution_incumbent_update
    (incumbent : Option GoMILP.solution) (candidate : GoMILP.solution)
    (res : Option GoMILP.solution × GoMILP.bnbDecision)
    (hres : GoMILP.checkSolution incumbent candidate = some res) :
    (res.1 = incumbent ∨
      (candidate.err = none ∧
        GoMILP.feasibleForIP candidate.problem.integralityConstraints candidate.x =
          some true ∧
        res.1 = some candidate ∧
        ∀ prev, incumbent = some prev → candidate.z < prev.z)) ∧
    (∀ prev, incumbent = some prev → prev.z ≤ candidate.z → res.1 = incumbent) := by
  unfold GoMILP.checkSolution at hres
  split at hres
  · -- candidate.err = some e
    split at hres
    · cases hres
    · cases hres
      exact ⟨Or.inl rfl, fun _ _ _ => rfl⟩
  · -- candidate.err = none
    rename_i heq
    split at hres
    · -- incumbentZ ≤ candidate.z held: candidate not installed
      cases hres
      exact ⟨Or.inl rfl, fun _ _ _ => rfl⟩
    · rename_i hcond
      split at hres
      · cases hres
      · -- feasibleForIP returned true: install
        rename_i hfeas
        cases hres
        refine ⟨Or.inr ⟨heq, hfeas, rfl, fun prev hp => ?_⟩,
          fun prev hp hple => ?_⟩
        · subst hp
          simpa using hcond
        · subst hp
          have : candidate.z < prev.z := by simpa using hcond
          exact absurd hple (not_le.mpr this)
      · -- feasibleForIP returned false: branch, incumbent untouched
        split at hres
        · cases hres
        · cases hres
          exact ⟨Or.inl rfl, fun _ _ _ => rfl⟩

/-- C5 witness: with an incumbent of z = 5 and an error-free integer-feasible
candidate of z = 3, checkSolution installs the candidate, and the theorem's
conditions hold at this instance. -/
theorem GoMILP.checkSolution_incumbent_update_witness :
    GoMILP.checkSolution (some GoMILP.checkExampleIncumbent)
        GoMILP.checkExampleCandidate =
      some (some GoMILP.checkExampleCandidate,
        .BETTER_THAN_INCUMBENT_FEASIBLE) ∧
    (((some GoMILP.checkExampleCandidate,
          GoMILP.bnbDecision.BETTER_THAN_INCUMBENT_FEASIBLE).1 =
        some GoMILP.checkExampleIncumbent ∨
      (GoMILP.checkExampleCandidate.err = none ∧
        GoMILP.feasibleForIP
            GoMILP.checkExampleCandidate.problem.integralityConstraints
            GoMILP.checkExampleCandidate.x = some true ∧
        (some GoMILP.checkExampleCandidate,
            GoMILP.bnbDecision.BETTER_THAN_INCUMBENT_FEASIBLE).1 =
          some GoMILP.checkExampleCandidate ∧
        ∀ prev, some GoMILP.checkExampleIncumbent = some prev →
          GoMILP.checkExampleCandidate.z < prev.z)) ∧
      (∀ prev, some GoMILP.checkExampleIncumbent = some prev →
        prev.z ≤ GoMILP.checkExampleCandidate.z →
        (some GoMILP.checkExampleCandidate,
            GoMILP.bnbDecision.BETTER_THAN_INCUMBENT_FEASIBLE).1 =
          some GoMILP.checkExampleIncumbent)) := by
  have hres : GoMILP.checkSolution (some GoMILP.checkExampleIncumbent)
      GoMILP.checkExampleCandidate =
      some (some GoMILP.checkExampleCandidate,
        .BETTER_THAN_INCUMBENT_FEASIBLE) := rfl
  exact ⟨hres, GoMILP.checkSolution_incumbent_update _ _ _ hres⟩

/-- C2: maxFunBranchPoint on c = (5, 1) with both variables
integer-constrained returns index 1, although |c_0| = 5 > 1 = |c_1|, so the
returned index does not maximize |c_j|: the code never updates its
candidateValue and therefore always selects the highest integer-constrained
index. -/
theorem GoMILP.maxFunBranchPoint_ignores_magnitude :
    GoMILP.maxFunBranchPoint [5, 1] [true, true] = some 1 ∧
      |(5 : ℚ)| > |(1 : ℚ)| := by
  constructor
  · norm_num [GoMILP.maxFunBranchPoint, GoMILP.maxFunLoop]
  · norm_num

/-- C3: with the MostInfeasible heuristic, branching on a solution with
x = (1/2, 3/10) picks index 1, although index 0 is the unique minimizer of
|1/2 - fractional_part(x_j)|: the code passes the objective vector c instead
of x to mostInfeasibleBranchPoint, drops the absolute value, and never
updates candidateRemainder, so the highest integer-constrained index
wins. -/
theorem GoMILP.mostInfeasible_ignores_solution :
    GoMILP.branchPoint GoMILP.mostInfExampleSolution = some 1 ∧
      |1/2 - GoMILP.modfFrac (GoMILP.mostInfExampleSolution.x.getD 0 0)| <
        |1/2 - GoMILP.modfFrac (GoMILP.mostInfExampleSolution.x.getD 1 0)| := by
  constructor
  · norm_num [GoMILP.branchPoint, GoMILP.mostInfExampleSolution,
      GoMILP.mostInfExampleProblem, GoMILP.mostInfeasibleBranchPoint,
      GoMILP.mostInfeasibleLoop, GoMILP.modfFrac, GoMILP.trunc]
  · norm_num [GoMILP.mostInfExampleSolution, GoMILP.modfFrac, GoMILP.trunc]

/-- C4: for the maximization problem maxExampleProblem (maximize 1·x,
0 ≤ x ≤ 5), toSolveable negates the coefficient (c = [-1]), but
Problem.Solve returns Solution.Objective = soln.solution.z without
re-negation: for the minimizer of the negated problem (z = -5 at x = 5) the
user receives -5, not the maximum 5 of the original objective. -/
theorem GoMILP.maximize_objective_not_renegated :
    (∃ m, GoMILP.toSolveable GoMILP.maxExampleProblem = some m ∧
      m.c = [-1] ∧ m.G = some [[1]] ∧ m.h = [5]) ∧
    (∃ s, GoMILP.solveAssemble GoMILP.maxExampleProblem (-5) [5] = some s ∧
      s.Objective = -5 ∧ s.Objective ≠ -(-5 : ℚ)) := by
  constructor
  · refine ⟨_, rfl, ?_, ?_, ?_⟩ <;>
      norm_num [GoMILP.toSolveable, GoMILP.maxExampleProblem,
        GoMILP.getVariableIndex, GoMILP.buildIndexRow]
  · refine ⟨_, rfl, ?_, ?_⟩ <;>
      norm_num [GoMILP.solveAssemble, GoMILP.maxExampleProblem]

/-- C1: the decision procedure maps `lp.ErrInfeasible` to the decision string
"subproblem contains a degenerate (singular) matrix" (SUBPROBLEM_IS_DEGENERATE)
and `lp.ErrSingular` to "subproblem has no feasible solution"
(SUBPROBLEM_NOT_FEASIBLE) — exactly the opposite pairing of what the claim and
the constants' own names state; other errors panic (none). -/
theorem GoMILP.translateSolverFailure_swapped :
    GoMILP.translateSolverFailure .ErrInfeasible = some .SUBPROBLEM_IS_DEGENERATE
    ∧ GoMILP.bnbDecisionString .SUBPROBLEM_IS_DEGENERATE =
        "subproblem contains a degenerate (singular) matrix"
    ∧ GoMILP.translateSolverFailure .ErrSingular = some .SUBPROBLEM_NOT_FEASIBLE
    ∧ GoMILP.bnbDecisionString .SUBPROBLEM_NOT_FEASIBLE =
        "subproblem has no feasible solution"
    ∧ GoMILP.translateSolverFailure .ErrUnbounded = none
    ∧ GoMILP.translateSolverFailure .other = none := by
  refine ⟨rfl, rfl, rfl, rfl, rfl, rfl⟩
